import Mathlib

/-!
Verification of the idempotency-key lifecycle manager.

The store is modelled as an association list from key strings to records,
mirroring the `idempotency_keys` table (primary key on `key`).  Timestamps
are naturals (milliseconds).  SQL `UPDATE ... WHERE` statements become
`updateWhere`, which rewrites every row matching the key and condition and
returns the affected-row count, exactly as `rowCount` reports it.
-/

namespace IdemKeys

/-- Status column: reserved, processing, completed, failed. -/
inductive Status
  | reserved
  | processing
  | completed
  | failed
deriving DecidableEq, Repr

/-- Whether a status is terminal (completed or failed). -/
def Status.isTerminal : Status → Bool
  | .completed => true
  | .failed => true
  | _ => false

/-- Opaque JSONB payload stored in the `response` column.  `payOk` models the
handler-built `{ success: true, paymentId, created_at }` object, `errMsg`
models `{ error: message }`, and `other` stands for any further JSON value. -/
inductive Payload
  | payOk (paymentId : Nat) (createdAt : Nat)
  | errMsg (msg : String)
  | other (tag : Nat)
deriving DecidableEq, Repr

/-- One row of the `idempotency_keys` table (the key itself is the map key). -/
structure KeyRecord where
  status : Status
  response : Option Payload
  user_id : Option Nat
  operation : Option String
  reserved_until : Option Nat
  created_at : Nat
  updated_at : Nat
deriving DecidableEq, Repr

/-- The `idempotency_keys` table: an association list keyed by the key string. -/
abbrev Store := List (String × KeyRecord)

/-- Primary-key uniqueness of the table (migrations.sql: `key TEXT PRIMARY KEY`). -/
def nodupKeys (s : Store) : Prop := (s.map Prod.fst).Nodup

instance (s : Store) : Decidable (nodupKeys s) := by
  unfold nodupKeys; infer_instance

/-- Row lookup by key: `SELECT ... WHERE key = $1` (first matching row). -/
def getRow : Store → String → Option KeyRecord
  | [], _ => none
  | (k', r) :: rest, k => if k' = k then some r else getRow rest k

/-- Conditional update `UPDATE ... SET f WHERE key = k AND cond`, applied to
every matching row; returns the affected-row count (`rowCount`) and the new
table. -/
def updateWhere (k : String) (cond : KeyRecord → Bool) (f : KeyRecord → KeyRecord) :
    Store → Nat × Store
  | [] => (0, [])
  | (k', r) :: rest =>
    let p := updateWhere k cond f rest
    if k' = k ∧ cond r = true then (p.1 + 1, (k', f r) :: p.2)
    else (p.1, (k', r) :: p.2)

instance (k k' : String) (cond : KeyRecord → Bool) (r : KeyRecord) :
    Decidable (k' = k ∧ cond r = true) := by infer_instance

/-- WHERE clause of tryClaimKey: `status = reserved AND (user_id IS NULL OR
user_id = $2) AND (reserved_until IS NULL OR reserved_until > now())`.
A NULL caller id never equals a non-NULL row id (SQL three-valued logic). -/
def claimCond (now : Nat) (uid : Option Nat) (r : KeyRecord) : Bool :=
  r.status == .reserved
  && (r.user_id.isNone || (uid.isSome && r.user_id == uid))
  && (match r.reserved_until with
      | none => true
      | some ru => decide (now < ru))

/-- tryClaimKey from index.js: one atomic conditional UPDATE setting
`status = processing, updated_at = now()`; returns `rowCount === 1`. -/
def tryClaimKey (now : Nat) (key : String) (user_id : Option Nat) (s : Store) :
    Bool × Store :=
  let q := updateWhere key (claimCond now user_id)
    (fun r => { r with status := .processing, updated_at := now }) s
  (q.1 == 1, q.2)

/-- Unconditional terminal write from the /pay handler:
`UPDATE idempotency_keys SET status=$2, response=$3, updated_at=now() WHERE key=$1`. -/
def setTerminal (now : Nat) (key : String) (st : Status) (resp : Payload) (s : Store) :
    Store :=
  (updateWhere key (fun _ => true)
    (fun r => { r with status := st, response := some resp, updated_at := now }) s).2

/-- POST /idempotency-keys: INSERT of a fresh `reserved` row with
`reserved_until = now() + KEY_TTL_MINUTES * 60 * 1000`.  A duplicate key
violates the primary key, the INSERT throws and no row is written (`none`). -/
def issueKey (now ttlMinutes : Nat) (key : String) (user_id : Option Nat)
    (operation : Option String) (s : Store) : Option Store :=
  match getRow s key with
  | some _ => none
  | none => some ((key,
      { status := .reserved, response := none, user_id := user_id,
        operation := operation,
        reserved_until := some (now + ttlMinutes * 60 * 1000),
        created_at := now, updated_at := now }) :: s)

/-- DELETE condition of cleanup_expired_keys.js:
`status = reserved AND reserved_until IS NOT NULL AND reserved_until < now()`. -/
def expiredReserved (now : Nat) (r : KeyRecord) : Bool :=
  r.status == .reserved
  && (match r.reserved_until with
      | none => false
      | some ru => decide (ru < now))

/-- cleanup from cleanup_expired_keys.js: deletes every expired reservation
and reports the deleted-row count (`rowCount` of the RETURNING query). -/
def cleanup (now : Nat) (s : Store) : Nat × Store :=
  ((s.filter (fun e => expiredReserved now e.2)).length,
   s.filter (fun e => !(expiredReserved now e.2)))

/-- HTTP responses the /pay handler can produce. -/
inductive HttpResp
  | ok (body : Option Payload)
  | badRequest (msg : String)
  | accepted
  | payFailed (detail : String)
  | prevFailed (detail : Option Payload)
  | serverError (detail : String)
deriving DecidableEq, Repr

/-- Message of the TypeError raised by `q.rows[0].status` when the query
returned no row (`rows[0]` is undefined). -/
def undefinedStatusMsg : String :=
  "Cannot read properties of undefined (reading status)"

def maxWaitMs : Nat := 5000

def intervalMs : Nat := 100

/-- Body of the short-poll while loop.  `readAt i` is the row the i-th
`SELECT status, response` observes (concurrent writers may change it between
reads); `fuel` is the number of iterations the `waited < maxWaitMs` guard
still allows.  Reading a missing row throws (`rows[0]` undefined). -/
def pollSteps (readAt : Nat → Option KeyRecord) : Nat → Nat → Except String HttpResp
  | _, 0 => .ok .accepted
  | i, fuel + 1 =>
    match readAt i with
    | none => .error undefinedStatusMsg
    | some r =>
      if r.status == .completed then .ok (.ok r.response)
      else if r.status == .failed then .ok (.prevFailed r.response)
      else pollSteps readAt (i + 1) fuel

/-- The short-poll loop: `waited` steps from 0 by `intervalMs` while it is
below `maxWaitMs`, so exactly `maxWaitMs / intervalMs` reads can happen. -/
def pollLoop (readAt : Nat → Option KeyRecord) : Except String HttpResp :=
  pollSteps readAt 0 (maxWaitMs / intervalMs)

/-- One row of the `payments` table. -/
structure Payment where
  id : Nat
  user_id : Nat
  amount : Nat
  created_at : Nat
deriving DecidableEq, Repr

/-- INSERT INTO payments ... RETURNING id, created_at (SERIAL id). -/
def insertPayment (now uid amt : Nat) (ps : List Payment) : Payment × List Payment :=
  let p : Payment := { id := ps.length + 1, user_id := uid, amount := amt, created_at := now }
  (p, ps ++ [p])

/-- POST /pay after the header/body checks, parametrised by the rows the
poll loop observes: `reads st i` is the row seen by the i-th poll read when
the table was `st` after the claim attempt (sequentially, `getRow st k`).
`fault = some msg` models the protected operation throwing with that
message, in which case the transaction is rolled back (payments unchanged)
and the catch block records the `failed` terminal state.  A throw escaping
the try block (the poll TypeError) reaches the outer catch, which answers
500 Server error. -/
def payBodyWith (reads : Store → Nat → Option KeyRecord) (now : Nat)
    (fault : Option String) (idempKey : String) (user_id amount : Nat)
    (s : Store) (ps : List Payment) : HttpResp × Store × List Payment :=
  match getRow s idempKey with
  | none => (.badRequest "Unknown idempotency key. Acquire a key first.", s, ps)
  | some row =>
    if row.status == .completed then (.ok row.response, s, ps)
    else
      let c := tryClaimKey now idempKey (some user_id) s
      if c.1 then
        match fault with
        | some msg =>
          ((.payFailed msg), setTerminal now idempKey .failed (.errMsg msg) c.2, ps)
        | none =>
          let ins := insertPayment now user_id amount ps
          let payload := Payload.payOk ins.1.id ins.1.created_at
          ((.ok (some payload)), setTerminal now idempKey .completed payload c.2, ins.2)
      else
        match pollLoop (reads c.2) with
        | .ok resp => (resp, c.2, ps)
        | .error e => (.serverError e, c.2, ps)

/-- POST /pay from index.js.  Missing header or falsy user_id/amount give
400; otherwise the body runs with the sequential observation function (each
poll read sees the table as the handler left it). -/
def payHandler (now : Nat) (fault : Option String) (idempKey : Option String)
    (user_id amount : Option Nat) (s : Store) (ps : List Payment) :
    HttpResp × Store × List Payment :=
  match idempKey with
  | none => (.badRequest "Missing Idempotency-Key header", s, ps)
  | some k =>
    if user_id.getD 0 == 0 || amount.getD 0 == 0 then
      (.badRequest "Missing user_id or amount", s, ps)
    else
      payBodyWith (fun st _ => getRow st k) now fault k
        (user_id.getD 0) (amount.getD 0) s ps

/-- Repeats the same /pay request n times, threading the state through. -/
def payRepeat (now : Nat) (fault : Option String) (idempKey : Option String)
    (user_id amount : Option Nat) : Nat → Store × List Payment → Store × List Payment
  | 0, st => st
  | n + 1, st =>
    let r := payHandler now fault idempKey user_id amount st.1 st.2
    payRepeat now fault idempKey user_id amount n r.2

/-- GET /idempotency/:key response. -/
inductive GetResp
  | found (r : KeyRecord)
  | notFound
deriving DecidableEq, Repr

/-- GET /idempotency/:key from index.js: the full row, or 404. -/
def getIdempotency (s : Store) (k : String) : GetResp :=
  match getRow s k with
  | some r => .found r
  | none => .notFound

/-- Sequence of claim attempts on one key, each one atomic, applied in the
order the storage engine serialises them; returns each attempt's result. -/
def claimSeq (k : String) (s : Store) : List (Nat × Option Nat) → List Bool × Store
  | [] => ([], s)
  | a :: rest =>
    let c := tryClaimKey a.1 k a.2 s
    let q := claimSeq k c.2 rest
    (c.1 :: q.1, q.2)

/-- Operations of the lifecycle protocol: key issue, claim attempt, the
winner's terminal write (complete when ok, fail otherwise), and the sweeper. -/
inductive Op
  | issue (now ttl : Nat) (key : String) (uid : Option Nat) (oper : Option String)
  | claim (now : Nat) (key : String) (uid : Option Nat)
  | finish (now : Nat) (key : String) (ok : Bool) (resp : Payload)
  | sweep (now : Nat)
deriving DecidableEq, Repr

/-- Protocol state: the table plus the set of keys whose claim was won but
whose terminal write has not yet been issued. -/
structure Sys where
  store : Store
  pending : List String
deriving DecidableEq, Repr

/-- One protocol step.  The terminal write itself is the unconditional
`setTerminal` UPDATE; the protocol (per the handler code: only the caller
whose tryClaimKey returned true runs complete or fail, and at most once)
is modelled by the `pending` guard. -/
def stepOp (s : Sys) : Op → Sys
  | .issue now ttl k uid oper =>
    match issueKey now ttl k uid oper s.store with
    | some st => { s with store := st }
    | none => s
  | .claim now k uid =>
    let c := tryClaimKey now k uid s.store
    { store := c.2, pending := if c.1 then k :: s.pending else s.pending }
  | .finish now k ok resp =>
    if k ∈ s.pending then
      { store := setTerminal now k (if ok then .completed else .failed) resp s.store,
        pending := s.pending.erase k }
    else s
  | .sweep now => { s with store := (cleanup now s.store).2 }

/-- Runs a list of protocol operations in order. -/
def execOps (ops : List Op) (s : Sys) : Sys := ops.foldl stepOp s

/-- The empty initial state (no keys issued, no claim pending). -/
def initSys : Sys := { store := [], pending := [] }

/-- Inductive protocol invariant: primary-key uniqueness, no duplicate
pending entries, every pending key is a `processing` row, and every
non-terminal row has a NULL response. -/
def SysInv (s : Sys) : Prop :=
  nodupKeys s.store
  ∧ s.pending.Nodup
  ∧ (∀ k, k ∈ s.pending → ∃ r, getRow s.store k = some r ∧ r.status = .processing)
  ∧ (∀ k r, getRow s.store k = some r →
       (r.status = .reserved ∨ r.status = .processing) → r.response = none)

/-- Whether an operation issues (re-creates) the given key. -/
def isIssueOf (k : String) : Op → Prop
  | .issue _ _ k' _ _ => k' = k
  | _ => False

/-- No row for the key is in the `reserved` state (so no claim can win). -/
def keyNotReserved (k : String) (st : Store) : Prop :=
  ∀ r, getRow st k = some r → r.status ≠ .reserved

/-- The record issueKey freshly inserts for a key. -/
def issuedRec (now0 ttl : Nat) (ow : Option Nat) (oper : Option String) : KeyRecord :=
  { status := .reserved, response := none, user_id := ow, operation := oper,
    reserved_until := some (now0 + ttl * 60 * 1000),
    created_at := now0, updated_at := now0 }

/-- Fixture: an unowned reserved row expiring at time 1000. -/
def rRes : KeyRecord :=
  { status := .reserved, response := none, user_id := none, operation := none,
    reserved_until := some 1000, created_at := 0, updated_at := 0 }

/-- Fixture: a one-row table holding `rRes` under key "a". -/
def sOne : Store := [("a", rRes)]

/-- Fixture: the reserved row, claimed (status processing). -/
def rProc : KeyRecord := { rRes with status := .processing }

/-- Fixture: a completed row caching the payload `other 3`. -/
def rDone : KeyRecord := { rRes with status := .completed, response := some (.other 3) }

/-- Fixture: a failed row caching the error payload. -/
def rFail : KeyRecord := { rRes with status := .failed, response := some (.errMsg "boom") }

theorem getRow_eq_none_of_not_mem (s : Store) (k : String)
    (h : k ∉ s.map Prod.fst) : getRow s k = none := by
  induction s with
  | nil => rfl
  | cons e rest ih =>
    obtain ⟨k', r⟩ := e
    simp only [List.map_cons, List.mem_cons] at h
    push_neg at h
    simp only [getRow]
    rw [if_neg (fun hh => h.1 hh.symm)]
    exact ih h.2

theorem mem_map_fst_of_getRow (s : Store) (k : String) (r : KeyRecord)
    (h : getRow s k = some r) : k ∈ s.map Prod.fst := by
  by_contra hc
  rw [getRow_eq_none_of_not_mem s k hc] at h
  exact Option.noConfusion h

theorem updateWhere_map_fst (k : String) (cond : KeyRecord → Bool)
    (f : KeyRecord → KeyRecord) (s : Store) :
    ((updateWhere k cond f s).2.map Prod.fst) = s.map Prod.fst := by
  induction s with
  | nil => rfl
  | cons e rest ih =>
    obtain ⟨k', r⟩ := e
    simp only [updateWhere]
    split
    · simpa using ih
    · simpa using ih

theorem nodupKeys_updateWhere (k : String) (cond : KeyRecord → Bool)
    (f : KeyRecord → KeyRecord) (s : Store) (h : nodupKeys s) :
    nodupKeys (updateWhere k cond f s).2 := by
  unfold nodupKeys at *
  rw [updateWhere_map_fst]
  exact h

theorem getRow_updateWhere_self (k : String) (cond : KeyRecord → Bool)
    (f : KeyRecord → KeyRecord) (s : Store) :
    getRow (updateWhere k cond f s).2 k =
      match getRow s k with
      | none => none
      | some r => if cond r = true then some (f r) else some r := by
  induction s with
  | nil => rfl
  | cons e rest ih =>
    obtain ⟨k', r⟩ := e
    simp only [updateWhere, getRow]
    by_cases hk : k' = k
    · by_cases hc : cond r = true
      · rw [if_pos ⟨hk, hc⟩]
        simp only [getRow, if_pos hk, hc]
        simp
      · rw [if_neg (fun hh => hc hh.2)]
        simp only [getRow, if_pos hk]
        simp [hc]
    · rw [if_neg (fun hh => hk hh.1)]
      simp only [getRow, if_neg hk]
      exact ih

theorem getRow_updateWhere_ne (k k' : String) (cond : KeyRecord → Bool)
    (f : KeyRecord → KeyRecord) (s : Store) (h : k' ≠ k) :
    getRow (updateWhere k cond f s).2 k' = getRow s k' := by
  induction s with
  | nil => rfl
  | cons e rest ih =>
    obtain ⟨k0, r⟩ := e
    simp only [updateWhere, getRow]
    by_cases hk : k0 = k ∧ cond r = true
    · rw [if_pos hk]
      simp only [getRow]
      rw [if_neg (fun hh => h (hh.symm.trans hk.1)), if_neg (fun hh => h (hh.symm.trans hk.1))]
      exact ih
    · rw [if_neg hk]
      simp only [getRow]
      by_cases h0 : k0 = k'
      · simp [h0]
      · rw [if_neg h0, if_neg h0]
        exact ih

theorem updateWhere_count (k : String) (cond : KeyRecord → Bool)
    (f : KeyRecord → KeyRecord) (s : Store) (hnd : nodupKeys s) :
    (updateWhere k cond f s).1 =
      match getRow s k with
      | none => 0
      | some r => if cond r = true then 1 else 0 := by
  induction s with
  | nil => rfl
  | cons e rest ih =>
    obtain ⟨k', r⟩ := e
    unfold nodupKeys at hnd
    simp only [List.map_cons, List.nodup_cons] at hnd
    by_cases hk : k' = k
    · have hrest : getRow rest k = none :=
        getRow_eq_none_of_not_mem rest k (hk ▸ hnd.1)
      have hz : (updateWhere k cond f rest).1 = 0 := by
        rw [ih hnd.2, hrest]
      by_cases hc : cond r = true
      · simp [updateWhere, getRow, hk, hc, hz]
      · simp [updateWhere, getRow, hk, hc, hz]
    · simp only [updateWhere, getRow]
      rw [if_neg (fun hh => hk hh.1), if_neg hk]
      exact ih hnd.2

theorem updateWhere_unchanged (k : String) (cond : KeyRecord → Bool)
    (f : KeyRecord → KeyRecord) (s : Store)
    (h : ∀ r ∈ s, ¬ (r.1 = k ∧ cond r.2 = true)) :
    (updateWhere k cond f s).2 = s := by
  induction s with
  | nil => rfl
  | cons e rest ih =>
    simp only [updateWhere]
    rw [if_neg (h e (List.mem_cons_self e rest))]
    simp only [List.cons.injEq, true_and]
    exact ih (fun r hr => h r (List.mem_cons_of_mem e hr))

theorem getRow_mem (s : Store) (k : String) (r : KeyRecord)
    (h : getRow s k = some r) : (k, r) ∈ s := by
  induction s with
  | nil => exact Option.noConfusion h
  | cons e rest ih =>
    obtain ⟨k', r'⟩ := e
    simp only [getRow] at h
    by_cases hk : k' = k
    · rw [if_pos hk] at h
      subst hk
      cases h
      exact List.mem_cons_self _ _
    · rw [if_neg hk] at h
      exact List.mem_cons_of_mem _ (ih h)

theorem mem_getRow_of_nodup (s : Store) (k : String) (r : KeyRecord)
    (hnd : nodupKeys s) (h : (k, r) ∈ s) : getRow s k = some r := by
  induction s with
  | nil => exact absurd h (List.not_mem_nil _)
  | cons e rest ih =>
    obtain ⟨k', r'⟩ := e
    unfold nodupKeys at hnd
    simp only [List.map_cons, List.nodup_cons] at hnd
    simp only [getRow]
    rcases List.mem_cons.mp h with h1 | h1
    · cases h1
      simp
    · by_cases hk : k' = k
      · subst hk
        exact absurd (List.mem_map_of_mem Prod.fst h1) (by simpa using hnd.1)
      · rw [if_neg hk]
        exact ih hnd.2 h1

theorem getRow_filter (q : KeyRecord → Bool) (s : Store) (k : String)
    (hnd : nodupKeys s) :
    getRow (s.filter (fun e => q e.2)) k =
      match getRow s k with
      | none => none
      | some r => if q r = true then some r else none := by
  induction s with
  | nil => rfl
  | cons e rest ih =>
    obtain ⟨k', r⟩ := e
    unfold nodupKeys at hnd
    simp only [List.map_cons, List.nodup_cons] at hnd
    by_cases hq : q r = true
    · simp only [List.filter_cons, hq, if_pos]
      simp only [getRow]
      by_cases hk : k' = k
      · simp [hk, hq]
      · rw [if_neg hk, if_neg hk]
        exact ih hnd.2
    · simp only [List.filter_cons]
      rw [if_neg (by simp [hq])]
      simp only [getRow]
      by_cases hk : k' = k
      · rw [if_pos hk]
        have hrest : getRow rest k = none :=
          getRow_eq_none_of_not_mem rest k (hk ▸ hnd.1)
        rw [ih hnd.2, hrest]
        simp [hq]
      · rw [if_neg hk]
        exact ih hnd.2

theorem nodupKeys_filter (q : KeyRecord → Bool) (s : Store) (hnd : nodupKeys s) :
    nodupKeys (s.filter (fun e => q e.2)) := by
  unfold nodupKeys at *
  exact List.Nodup.sublist (List.Sublist.map Prod.fst (List.filter_sublist s)) hnd

theorem nodupKeys_tryClaimKey (now : Nat) (k : String) (uid : Option Nat) (s : Store)
    (hnd : nodupKeys s) : nodupKeys (tryClaimKey now k uid s).2 :=
  nodupKeys_updateWhere _ _ _ _ hnd

theorem tryClaimKey_true_iff (now : Nat) (k : String) (uid : Option Nat) (s : Store)
    (hnd : nodupKeys s) :
    (tryClaimKey now k uid s).1 = true ↔
      ∃ r, getRow s k = some r ∧ claimCond now uid r = true := by
  unfold tryClaimKey
  simp only [beq_iff_eq]
  rw [updateWhere_count _ _ _ _ hnd]
  cases hrow : getRow s k with
  | none => simp
  | some r =>
    by_cases hc : claimCond now uid r = true
    · simp [hc]
    · constructor
      · intro h
        simp [hc] at h
      · rintro ⟨r2, hr2, hc2⟩
        cases hr2
        exact absurd hc2 hc

theorem tryClaimKey_getRow_self (now : Nat) (k : String) (uid : Option Nat) (s : Store) :
    getRow (tryClaimKey now k uid s).2 k =
      match getRow s k with
      | none => none
      | some r =>
        if claimCond now uid r = true
        then some { r with status := .processing, updated_at := now }
        else some r :=
  getRow_updateWhere_self k _ _ s

theorem tryClaimKey_getRow_ne (now : Nat) (k k' : String) (uid : Option Nat)
    (s : Store) (h : k' ≠ k) :
    getRow (tryClaimKey now k uid s).2 k' = getRow s k' :=
  getRow_updateWhere_ne k k' _ _ s h

theorem tryClaimKey_false_store (now : Nat) (k : String) (uid : Option Nat) (s : Store)
    (hnd : nodupKeys s) (h : (tryClaimKey now k uid s).1 = false) :
    (tryClaimKey now k uid s).2 = s := by
  unfold tryClaimKey at *
  simp only [beq_iff_eq] at h
  rw [updateWhere_count _ _ _ _ hnd] at h
  apply updateWhere_unchanged
  rintro ⟨k0, r0⟩ hmem ⟨hk0, hc0⟩
  subst hk0
  rw [mem_getRow_of_nodup s k0 r0 hnd hmem] at h
  simp [hc0] at h

theorem setTerminal_getRow_self (now : Nat) (k : String) (st : Status)
    (resp : Payload) (s : Store) :
    getRow (setTerminal now k st resp s) k =
      match getRow s k with
      | none => none
      | some r => some { r with status := st, response := some resp, updated_at := now } := by
  unfold setTerminal
  rw [getRow_updateWhere_self]
  cases getRow s k <;> simp

theorem setTerminal_getRow_ne (now : Nat) (k k' : String) (st : Status)
    (resp : Payload) (s : Store) (h : k' ≠ k) :
    getRow (setTerminal now k st resp s) k' = getRow s k' :=
  getRow_updateWhere_ne k k' _ _ s h

theorem nodupKeys_setTerminal (now : Nat) (k : String) (st : Status)
    (resp : Payload) (s : Store) (hnd : nodupKeys s) :
    nodupKeys (setTerminal now k st resp s) :=
  nodupKeys_updateWhere _ _ _ _ hnd

theorem claimCond_iff (now : Nat) (uid : Option Nat) (r : KeyRecord) :
    claimCond now uid r = true ↔
      r.status = .reserved
      ∧ (r.user_id = none ∨ (uid ≠ none ∧ r.user_id = uid))
      ∧ (r.reserved_until = none ∨ ∃ ru, r.reserved_until = some ru ∧ now < ru) := by
  unfold claimCond
  cases hru : r.reserved_until with
  | none =>
    cases huid : r.user_id <;> cases uid <;>
      simp [Bool.and_eq_true, Bool.or_eq_true, and_assoc]
  | some ru =>
    cases huid : r.user_id <;> cases uid <;>
      simp [Bool.and_eq_true, Bool.or_eq_true, and_assoc]

theorem length_filter_partition (p : String × KeyRecord → Bool) (l : Store) :
    (l.filter p).length + (l.filter (fun a => !(p a))).length = l.length := by
  induction l with
  | nil => rfl
  | cons a l ih =>
    by_cases h : p a <;> simp [List.filter_cons, h, ← ih] <;> omega

/-- C2: a single tryClaimKey attempt returns true — and atomically moves the
row to `processing` with `updated_at` refreshed — exactly when a row for the
key exists, is `reserved`, its user_id is NULL or equals the caller, and its
reserved_until is NULL or strictly in the future; in every other case
(including an expired but still `reserved` row) it returns false and leaves
the table unchanged. -/
theorem tryClaimKey_correct (now : Nat) (k : String) (uid : Option Nat) (s : Store)
    (hnd : nodupKeys s) :
    ((tryClaimKey now k uid s).1 = true ↔
      ∃ r, getRow s k = some r ∧ r.status = .reserved
        ∧ (r.user_id = none ∨ (uid ≠ none ∧ r.user_id = uid))
        ∧ (r.reserved_until = none ∨ ∃ ru, r.reserved_until = some ru ∧ now < ru))
    ∧ (∀ r, getRow s k = some r → (tryClaimKey now k uid s).1 = true →
        getRow (tryClaimKey now k uid s).2 k =
          some { r with status := .processing, updated_at := now })
    ∧ ((tryClaimKey now k uid s).1 = false → (tryClaimKey now k uid s).2 = s) := by
  refine ⟨?_, ?_, tryClaimKey_false_store now k uid s hnd⟩
  · rw [tryClaimKey_true_iff now k uid s hnd]
    constructor
    · rintro ⟨r, hr, hc⟩
      exact ⟨r, hr, (claimCond_iff now uid r).mp hc⟩
    · rintro ⟨r, hr, hc⟩
      exact ⟨r, hr, (claimCond_iff now uid r).mpr hc⟩
  · intro r hr htrue
    have hc : claimCond now uid r = true := by
      obtain ⟨r2, hr2, hc2⟩ := (tryClaimKey_true_iff now k uid s hnd).mp htrue
      rw [hr] at hr2
      cases hr2
      exact hc2
    rw [tryClaimKey_getRow_self, hr]
    simp [hc]

/-- Witness for C2 at a concrete claimable row. -/
theorem tryClaimKey_correct_witness :
    (tryClaimKey 5 "a" (some 1) sOne).1 = true :=
  (tryClaimKey_correct 5 "a" (some 1) sOne (by decide)).1.mpr
    ⟨rRes, by decide, by decide, Or.inl (by decide), Or.inr ⟨1000, by decide, by decide⟩⟩

/-- C8: cleanup deletes exactly the rows that are `reserved` with an elapsed
reserved_until (count plus survivors partition the table), never touches a
`processing`, `completed` or `failed` row or an unexpired or unbounded
reservation, and returns the number of deleted rows. -/
theorem cleanup_correct (now : Nat) (s : Store) (hnd : nodupKeys s) :
    ((cleanup now s).1 + (cleanup now s).2.length = s.length)
    ∧ (∀ k r ru, getRow s k = some r → r.status = .reserved →
        r.reserved_until = some ru → ru < now →
        getRow (cleanup now s).2 k = none)
    ∧ (∀ k r, getRow s k = some r →
        (r.status ≠ .reserved ∨ r.reserved_until = none ∨
          ∃ ru, r.reserved_until = some ru ∧ ¬ ru < now) →
        getRow (cleanup now s).2 k = some r) := by
  refine ⟨?_, ?_, ?_⟩
  · unfold cleanup
    exact length_filter_partition _ s
  · intro k r ru hr hst hru hlt
    show getRow (s.filter (fun e => !(expiredReserved now e.2))) k = none
    rw [getRow_filter (fun r => !(expiredReserved now r)) s k hnd, hr]
    have : expiredReserved now r = true := by
      simp [expiredReserved, hst, hru, hlt]
    simp [this]
  · intro k r hr hcond
    show getRow (s.filter (fun e => !(expiredReserved now e.2))) k = some r
    rw [getRow_filter (fun r => !(expiredReserved now r)) s k hnd, hr]
    have : expiredReserved now r = false := by
      unfold expiredReserved
      rcases hcond with h | h | ⟨ru, hru, hge⟩
      · simp [h]
      · simp [h]
      · simp [hru, hge]
    simp [this]

/-- Witness for C8: a table with one expired reservation, one live one, one
processing row and one completed row; only the expired reservation goes. -/
theorem cleanup_correct_witness :
    getRow (cleanup 2000 [("a", rRes),
      ("b", { rRes with reserved_until := some 3000 }),
      ("c", { rRes with status := .processing }),
      ("d", { rRes with status := .completed })]).2 "a" = none :=
  (cleanup_correct 2000 [("a", rRes),
      ("b", { rRes with reserved_until := some 3000 }),
      ("c", { rRes with status := .processing }),
      ("d", { rRes with status := .completed })] (by decide)).2.1
    "a" rRes 1000 (by decide) (by decide) (by decide) (by decide)

theorem pollSteps_congr (readAt readAt2 : Nat → Option KeyRecord) :
    ∀ (fuel i : Nat), (∀ j, i ≤ j → j < i + fuel → readAt j = readAt2 j) →
      pollSteps readAt i fuel = pollSteps readAt2 i fuel := by
  intro fuel
  induction fuel with
  | zero => intro i _; rfl
  | succ n ih =>
    intro i h
    simp only [pollSteps]
    rw [h i (le_refl i) (by omega)]
    cases readAt2 i with
    | none => rfl
    | some r =>
      cases hs : r.status with
      | completed => simp [hs, beq_iff_eq]
      | failed => simp [hs, beq_iff_eq]
      | reserved =>
        simp only [hs, beq_iff_eq, reduceCtorEq, if_false]
        exact ih (i + 1) (fun j hj hj2 => h j (by omega) (by omega))
      | processing =>
        simp only [hs, beq_iff_eq, reduceCtorEq, if_false]
        exact ih (i + 1) (fun j hj hj2 => h j (by omega) (by omega))

theorem pollSteps_nonterminal (readAt : Nat → Option KeyRecord) :
    ∀ (fuel i : Nat),
      (∀ j, i ≤ j → j < i + fuel →
        ∃ r, readAt j = some r ∧ r.status ≠ .completed ∧ r.status ≠ .failed) →
      pollSteps readAt i fuel = .ok .accepted := by
  intro fuel
  induction fuel with
  | zero => intro i _; rfl
  | succ n ih =>
    intro i h
    obtain ⟨r, hr, hnc, hnf⟩ := h i (le_refl i) (by omega)
    simp only [pollSteps, hr]
    rw [if_neg (by simpa using hnc), if_neg (by simpa using hnf)]
    exact ih (i + 1) (fun j hj hj2 => h j (by omega) (by omega))

theorem pollSteps_terminal (readAt : Nat → Option KeyRecord) :
    ∀ (fuel i j0 : Nat) (rec : KeyRecord), i ≤ j0 → j0 < i + fuel →
      readAt j0 = some rec →
      (∀ j, i ≤ j → j < j0 →
        ∃ r, readAt j = some r ∧ r.status ≠ .completed ∧ r.status ≠ .failed) →
      (rec.status = .completed → pollSteps readAt i fuel = .ok (.ok rec.response))
      ∧ (rec.status = .failed → pollSteps readAt i fuel = .ok (.prevFailed rec.response)) := by
  intro fuel
  induction fuel with
  | zero =>
    intro i j0 rec h1 h2 _ _
    exact absurd h2 (by omega)
  | succ n ih =>
    intro i j0 rec h1 h2 hread hpre
    by_cases hij : i = j0
    · subst hij
      constructor
      · intro hc
        simp only [pollSteps, hread]
        rw [if_pos (by simpa using hc)]
      · intro hf
        simp only [pollSteps, hread]
        rw [if_neg (by simp [hf]), if_pos (by simpa using hf)]
    · have hi : i < j0 := lt_of_le_of_ne h1 hij
      obtain ⟨r, hr, hnc, hnf⟩ := hpre i (le_refl i) hi
      simp only [pollSteps, hr]
      rw [if_neg (by simpa using hnc), if_neg (by simpa using hnf)]
      exact ih (i + 1) j0 rec (by omega) (by omega) hread
        (fun j hj hj2 => hpre j (by omega) hj2)

/-- C7: the short-poll loop performs at most maxWaitMs / intervalMs = 50
reads (its outcome depends on nothing beyond the first 50 observations);
if every observation within the window is a live, non-terminal row it
answers 202 accepted; and at the first terminal observation it returns the
cached response (200 for completed, 500 with the cached detail for failed). -/
theorem pollLoop_spec (readAt readAt2 : Nat → Option KeyRecord) :
    (maxWaitMs / intervalMs = 50)
    ∧ ((∀ i, i < 50 → readAt i = readAt2 i) → pollLoop readAt = pollLoop readAt2)
    ∧ ((∀ i, i < 50 →
          ∃ r, readAt i = some r ∧ r.status ≠ .completed ∧ r.status ≠ .failed) →
        pollLoop readAt = .ok .accepted)
    ∧ (∀ i0 rec, i0 < 50 → readAt i0 = some rec →
        (∀ j, j < i0 →
          ∃ r, readAt j = some r ∧ r.status ≠ .completed ∧ r.status ≠ .failed) →
        (rec.status = .completed → pollLoop readAt = .ok (.ok rec.response))
        ∧ (rec.status = .failed → pollLoop readAt = .ok (.prevFailed rec.response))) := by
  refine ⟨rfl, ?_, ?_, ?_⟩
  · intro h
    exact pollSteps_congr readAt readAt2 50 0 (fun j hj hj2 => h j (by omega))
  · intro h
    exact pollSteps_nonterminal readAt 50 0 (fun j hj hj2 => h j (by omega))
  · intro i0 rec h0 hread hpre
    exact pollSteps_terminal readAt 50 0 i0 rec (by omega) (by omega) hread
      (fun j hj hj2 => hpre j hj2)

/-- Witness for C7: constant processing observations time out to 202. -/
theorem pollLoop_spec_witness :
    pollLoop (fun _ => some rProc) = .ok .accepted :=
  (pollLoop_spec (fun _ => some rProc) (fun _ => some rProc)).2.2.1
    (fun i _ => ⟨rProc, rfl, by decide, by decide⟩)

theorem not_mem_fst_of_getRow_none (s : Store) (k : String)
    (h : getRow s k = none) : k ∉ s.map Prod.fst := by
  induction s with
  | nil => simp
  | cons e rest ih =>
    obtain ⟨k', r⟩ := e
    simp only [getRow] at h
    by_cases hk : k' = k
    · rw [if_pos hk] at h
      exact Option.noConfusion h
    · rw [if_neg hk] at h
      simp only [List.map_cons, List.mem_cons]
      push_neg
      exact ⟨fun hh => hk hh.symm, ih h⟩

theorem tryClaimKey_fail (now : Nat) (k : String) (uid : Option Nat) (s : Store)
    (hnd : nodupKeys s)
    (h : ∀ r, getRow s k = some r → claimCond now uid r = false) :
    tryClaimKey now k uid s = (false, s) := by
  have h1 : (tryClaimKey now k uid s).1 = false := by
    unfold tryClaimKey
    show ((updateWhere k (claimCond now uid)
      (fun r => { r with status := .processing, updated_at := now }) s).1 == 1) = false
    rw [updateWhere_count _ _ _ _ hnd]
    cases hrow : getRow s k with
    | none => rfl
    | some r => simp [h r hrow]
  have h2 := tryClaimKey_false_store now k uid s hnd h1
  exact Prod.ext h1 h2

theorem payHandler_some (now : Nat) (fault : Option String) (k : String)
    (u a : Nat) (s : Store) (ps : List Payment) (hu : u ≠ 0) (ha : a ≠ 0) :
    payHandler now fault (some k) (some u) (some a) s ps =
      payBodyWith (fun st _ => getRow st k) now fault k u a s ps := by
  simp [payHandler, Option.getD_some, beq_iff_eq, hu, ha]

theorem payBodyWith_completed (reads : Store → Nat → Option KeyRecord) (now : Nat)
    (fault : Option String) (k : String) (u a : Nat) (s : Store) (ps : List Payment)
    (r : KeyRecord) (hr : getRow s k = some r) (hst : r.status = .completed) :
    payBodyWith reads now fault k u a s ps = (.ok r.response, s, ps) := by
  unfold payBodyWith
  rw [hr]
  simp [hst]

theorem payBodyWith_notClaimed (reads : Store → Nat → Option KeyRecord) (now : Nat)
    (fault : Option String) (k : String) (u a : Nat) (s : Store) (ps : List Payment)
    (r : KeyRecord) (hr : getRow s k = some r) (hst : r.status ≠ .completed)
    (hnd : nodupKeys s)
    (hfail : ∀ r2, getRow s k = some r2 → claimCond now (some u) r2 = false) :
    payBodyWith reads now fault k u a s ps =
      (match pollLoop (reads s) with
       | .ok resp => (resp, s, ps)
       | .error e => (.serverError e, s, ps)) := by
  unfold payBodyWith
  simp only [hr]
  rw [if_neg (show ¬ (r.status == Status.completed) = true by simpa using hst)]
  rw [tryClaimKey_fail now k (some u) s hnd hfail]
  rfl

theorem payBodyWith_claimed (reads : Store → Nat → Option KeyRecord) (now : Nat)
    (fault : Option String) (k : String) (u a : Nat) (s : Store) (ps : List Payment)
    (r : KeyRecord) (hr : getRow s k = some r) (hst : r.status ≠ .completed)
    (hnd : nodupKeys s) (hc : claimCond now (some u) r = true) :
    payBodyWith reads now fault k u a s ps =
      match fault with
      | some msg =>
        (.payFailed msg,
          setTerminal now k .failed (.errMsg msg) (tryClaimKey now k (some u) s).2, ps)
      | none =>
        (.ok (some (.payOk (ps.length + 1) now)),
          setTerminal now k .completed (.payOk (ps.length + 1) now)
            (tryClaimKey now k (some u) s).2,
          ps ++ [{ id := ps.length + 1, user_id := u, amount := a, created_at := now }]) := by
  have htrue : (tryClaimKey now k (some u) s).1 = true :=
    (tryClaimKey_true_iff now k (some u) s hnd).mpr ⟨r, hr, hc⟩
  unfold payBodyWith
  simp only [hr]
  rw [if_neg (show ¬ (r.status == Status.completed) = true by simpa using hst)]
  rw [if_pos htrue]
  cases fault <;> rfl

theorem pollLoop_eq (readAt : Nat → Option KeyRecord) :
    pollLoop readAt = pollSteps readAt 0 50 := rfl

theorem payHandler_completed_row (now : Nat) (fault : Option String) (k : String)
    (u a : Nat) (s : Store) (ps : List Payment) (r : KeyRecord)
    (hr : getRow s k = some r) (hst : r.status = .completed)
    (hu : u ≠ 0) (ha : a ≠ 0) :
    payHandler now fault (some k) (some u) (some a) s ps = (.ok r.response, s, ps) := by
  rw [payHandler_some now fault k u a s ps hu ha]
  exact payBodyWith_completed _ now fault k u a s ps r hr hst

theorem payHandler_failed_row (now : Nat) (fault : Option String) (k : String)
    (u a : Nat) (s : Store) (ps : List Payment) (r : KeyRecord)
    (hnd : nodupKeys s) (hr : getRow s k = some r) (hst : r.status = .failed)
    (hu : u ≠ 0) (ha : a ≠ 0) :
    payHandler now fault (some k) (some u) (some a) s ps =
      (.prevFailed r.response, s, ps) := by
  rw [payHandler_some now fault k u a s ps hu ha]
  have hnc : r.status ≠ .completed := by
    rw [hst]
    exact fun h => Status.noConfusion h
  have hfail : ∀ r2, getRow s k = some r2 → claimCond now (some u) r2 = false := by
    intro r2 hr2
    rw [hr] at hr2
    cases hr2
    simp [claimCond, hst]
  rw [payBodyWith_notClaimed _ now fault k u a s ps r hr hnc hnd hfail]
  have hpoll : pollLoop (fun _ => getRow s k) = .ok (.prevFailed r.response) := by
    rw [pollLoop_eq]
    exact (pollSteps_terminal (fun _ => getRow s k) 50 0 0 r (le_refl 0) (by omega) hr
      (fun j hj hj2 => absurd hj2 (by omega))).2 hst
  show (match pollLoop (fun _ => getRow s k) with
    | .ok resp => (resp, s, ps)
    | .error e => (HttpResp.serverError e, s, ps)) = (.prevFailed r.response, s, ps)
  rw [hpoll]

/-- C4: a /pay request presenting a key already in a terminal state returns
the stored canonical response (200 with the cached payload for completed,
500 with the cached error detail for failed) and leaves the key table and
the payments table unchanged; the payment insert is never executed again no
matter how many times the request is repeated. -/
theorem pay_terminal_cached (now : Nat) (fault : Option String) (k : String)
    (u a : Nat) (s : Store) (ps : List Payment) (r : KeyRecord) (n : Nat)
    (hnd : nodupKeys s) (hr : getRow s k = some r)
    (hterm : r.status = .completed ∨ r.status = .failed)
    (hu : u ≠ 0) (ha : a ≠ 0) :
    payHandler now fault (some k) (some u) (some a) s ps =
      ((if r.status = .completed then .ok r.response else .prevFailed r.response), s, ps)
    ∧ payRepeat now fault (some k) (some u) (some a) n (s, ps) = (s, ps) := by
  have h1 : payHandler now fault (some k) (some u) (some a) s ps =
      ((if r.status = .completed then .ok r.response else .prevFailed r.response), s, ps) := by
    rcases hterm with hst | hst
    · rw [if_pos hst]
      exact payHandler_completed_row now fault k u a s ps r hr hst hu ha
    · rw [if_neg (by rw [hst]; exact fun h => Status.noConfusion h)]
      exact payHandler_failed_row now fault k u a s ps r hnd hr hst hu ha
  refine ⟨h1, ?_⟩
  induction n with
  | zero => rfl
  | succ m ih =>
    simp only [payRepeat]
    rw [h1]
    exact ih

/-- Witness for C4 at a concrete completed key. -/
theorem pay_terminal_cached_witness :
    payHandler 1 none (some "a") (some 1) (some 2) [("a", rDone)] [] =
      (.ok rDone.response, [("a", rDone)], []) := by
  have h := (pay_terminal_cached 1 none "a" 1 2 [("a", rDone)] [] rDone 2
    (by decide) (by decide) (Or.inl (by decide)) (by decide) (by decide)).1
  rw [h, if_pos (show rDone.status = .completed by decide)]

/-- C10: a key still `reserved` whose reserved_until has passed but which
the sweeper has not yet removed: /pay does not execute the payment (the
claim fails), polls the unchanged reserved row for the whole window, and
answers 202 processing, leaving the table and the payments list unchanged. -/
theorem pay_expired_reserved (now : Nat) (fault : Option String) (k : String)
    (u a ru : Nat) (s : Store) (ps : List Payment) (r : KeyRecord)
    (hnd : nodupKeys s) (hr : getRow s k = some r) (hst : r.status = .reserved)
    (hru : r.reserved_until = some ru) (hexp : ru ≤ now) (hu : u ≠ 0) (ha : a ≠ 0) :
    payHandler now fault (some k) (some u) (some a) s ps = (.accepted, s, ps) := by
  rw [payHandler_some now fault k u a s ps hu ha]
  have hnc : r.status ≠ .completed := by
    rw [hst]
    exact fun h => Status.noConfusion h
  have hfail : ∀ r2, getRow s k = some r2 → claimCond now (some u) r2 = false := by
    intro r2 hr2
    rw [hr] at hr2
    cases hr2
    unfold claimCond
    rw [hru]
    simp [Nat.not_lt.mpr hexp]
  rw [payBodyWith_notClaimed _ now fault k u a s ps r hr hnc hnd hfail]
  have hpoll : pollLoop (fun _ => getRow s k) = .ok .accepted := by
    rw [pollLoop_eq]
    exact pollSteps_nonterminal _ 50 0
      (fun j hj hj2 => ⟨r, hr, by simp [hst], by simp [hst]⟩)
  show (match pollLoop (fun _ => getRow s k) with
    | .ok resp => (resp, s, ps)
    | .error e => (HttpResp.serverError e, s, ps)) = (.accepted, s, ps)
  rw [hpoll]

/-- Witness for C10 at a concrete expired reservation. -/
theorem pay_expired_reserved_witness :
    payHandler 2000 none (some "a") (some 1) (some 2) [("a", rRes)] [] =
      (.accepted, [("a", rRes)], []) :=
  pay_expired_reserved 2000 none "a" 1 2 1000 [("a", rRes)] [] rRes
    (by decide) (by decide) (by decide) (by decide) (by decide) (by decide) (by decide)

theorem pollSteps_missing (readAt : Nat → Option KeyRecord) :
    ∀ (fuel i j0 : Nat), i ≤ j0 → j0 < i + fuel → readAt j0 = none →
      (∀ j, i ≤ j → j < j0 →
        ∃ r, readAt j = some r ∧ r.status ≠ .completed ∧ r.status ≠ .failed) →
      pollSteps readAt i fuel = .error undefinedStatusMsg := by
  intro fuel
  induction fuel with
  | zero =>
    intro i j0 h1 h2 _ _
    exact absurd h2 (by omega)
  | succ n ih =>
    intro i j0 h1 h2 hread hpre
    by_cases hij : i = j0
    · subst hij
      simp [pollSteps, hread]
    · have hi : i < j0 := lt_of_le_of_ne h1 hij
      obtain ⟨r, hr, hnc, hnf⟩ := hpre i (le_refl i) hi
      simp only [pollSteps, hr]
      rw [if_neg (by simpa using hnc), if_neg (by simpa using hnf)]
      exact ih (i + 1) j0 (by omega) (by omega) hread
        (fun j hj hj2 => hpre j (by omega) hj2)

/-- C9: the poll loop reads rows[0] without a row-count check.  If the
record is absent at some poll read (all earlier reads having observed a
live, non-terminal row), reading .status of undefined throws, and the outer
catch answers 500 Server error instead of the 400 unknown-key response the
handler gives at entry. -/
theorem pay_poll_missing_row (reads : Store → Nat → Option KeyRecord) (now : Nat)
    (fault : Option String) (k : String) (u a i0 : Nat) (s : Store)
    (ps : List Payment) (r : KeyRecord) (hnd : nodupKeys s)
    (hr : getRow s k = some r) (hst : r.status ≠ .completed)
    (hcl : ∀ r2, getRow s k = some r2 → claimCond now (some u) r2 = false)
    (h0 : i0 < 50) (hnone : reads s i0 = none)
    (hpre : ∀ j, j < i0 →
      ∃ r2, reads s j = some r2 ∧ r2.status ≠ .completed ∧ r2.status ≠ .failed) :
    payBodyWith reads now fault k u a s ps =
      (.serverError undefinedStatusMsg, s, ps) := by
  rw [payBodyWith_notClaimed reads now fault k u a s ps r hr hst hnd hcl]
  have hpoll : pollLoop (reads s) = .error undefinedStatusMsg := by
    rw [pollLoop_eq]
    exact pollSteps_missing (reads s) 50 0 i0 (by omega) (by omega) hnone
      (fun j hj hj2 => hpre j hj2)
  rw [hpoll]

/-- Witness for C9: the row vanishes before the first poll read. -/
theorem pay_poll_missing_row_witness :
    payBodyWith (fun _ _ => none) 1 none "a" 1 2 [("a", rProc)] [] =
      (.serverError undefinedStatusMsg, [("a", rProc)], []) :=
  pay_poll_missing_row (fun _ _ => none) 1 none "a" 1 2 0 [("a", rProc)] [] rProc
    (by decide) (by decide) (by decide)
    (by
      intro r2 h2
      rw [show getRow [("a", rProc)] "a" = some rProc from rfl] at h2
      cases h2
      decide)
    (by decide) rfl (fun j hj => absurd hj (by omega))

/-- C6: when the protected payment operation throws after the claim
succeeded, the key is driven to the terminal `failed` state with the error
payload recorded as its response, the caller receives the 500 Payment-failed
response, and the payments table is untouched (the transaction rolls back);
the key is not left in `processing`, and a later caller presenting the same
key receives the recorded failure without the payment being executed. -/
theorem pay_fault_records_failure (now now2 : Nat) (k : String)
    (u a u2 a2 : Nat) (fault2 : Option String) (e : String) (s : Store)
    (ps ps2 : List Payment) (r : KeyRecord) (hnd : nodupKeys s)
    (hr : getRow s k = some r) (hc : claimCond now (some u) r = true)
    (hu : u ≠ 0) (ha : a ≠ 0) (hu2 : u2 ≠ 0) (ha2 : a2 ≠ 0) :
    (payHandler now (some e) (some k) (some u) (some a) s ps).1 = .payFailed e
    ∧ (payHandler now (some e) (some k) (some u) (some a) s ps).2.2 = ps
    ∧ getRow (payHandler now (some e) (some k) (some u) (some a) s ps).2.1 k =
        some { r with status := .failed, response := some (.errMsg e), updated_at := now }
    ∧ (payHandler now2 fault2 (some k) (some u2) (some a2)
        (payHandler now (some e) (some k) (some u) (some a) s ps).2.1 ps2).1 =
          .prevFailed (some (.errMsg e))
    ∧ (payHandler now2 fault2 (some k) (some u2) (some a2)
        (payHandler now (some e) (some k) (some u) (some a) s ps).2.1 ps2).2.2 = ps2 := by
  have hnc : r.status ≠ .completed := by
    rw [((claimCond_iff now (some u) r).mp hc).1]
    exact fun h => Status.noConfusion h
  have h1 : payHandler now (some e) (some k) (some u) (some a) s ps =
      (.payFailed e,
        setTerminal now k .failed (.errMsg e) (tryClaimKey now k (some u) s).2, ps) := by
    rw [payHandler_some now (some e) k u a s ps hu ha]
    rw [payBodyWith_claimed _ now (some e) k u a s ps r hr hnc hnd hc]
  have hclaim : getRow (tryClaimKey now k (some u) s).2 k =
      some { r with status := .processing, updated_at := now } := by
    rw [tryClaimKey_getRow_self, hr]
    simp [hc]
  have hrow : getRow
      (setTerminal now k .failed (.errMsg e) (tryClaimKey now k (some u) s).2) k =
      some { r with status := .failed, response := some (.errMsg e), updated_at := now } := by
    rw [setTerminal_getRow_self, hclaim]
  have hnd2 : nodupKeys
      (setTerminal now k .failed (.errMsg e) (tryClaimKey now k (some u) s).2) :=
    nodupKeys_setTerminal _ _ _ _ _ (nodupKeys_tryClaimKey _ _ _ _ hnd)
  have hproj : (payHandler now (some e) (some k) (some u) (some a) s ps).2.1 =
      setTerminal now k .failed (.errMsg e) (tryClaimKey now k (some u) s).2 := by
    rw [h1]
  have h2 := payHandler_failed_row now2 fault2 k u2 a2 _ ps2 _ hnd2 hrow rfl hu2 ha2
  refine ⟨by rw [h1], by rw [h1], by rw [hproj]; exact hrow, ?_, ?_⟩
  · rw [hproj, h2]
  · rw [hproj, h2]

/-- Witness for C6 at a concrete claimable key and a throwing payment. -/
theorem pay_fault_records_failure_witness :
    (payHandler 5 (some "boom") (some "a") (some 1) (some 2) [("a", rRes)] []).1 =
      .payFailed "boom" :=
  (pay_fault_records_failure 5 9 "a" 1 2 3 4 none "boom" [("a", rRes)] [] [] rRes
    (by decide) (by decide) (by decide) (by decide) (by decide) (by decide) (by decide)).1

/-- C5: starting from a table without the key, issuing it, claiming it (the
claim succeeds), completing it with payload P, then reading the key via
GET /idempotency/:key yields a record with status completed and response
exactly P. -/
theorem round_trip (now0 ttl now1 now2 : Nat) (k : String) (ow uid : Option Nat)
    (oper : Option String) (P : Payload) (s s1 : Store)
    (hnd : nodupKeys s) (habs : getRow s k = none)
    (hiss : issueKey now0 ttl k ow oper s = some s1)
    (howner : ow = none ∨ (uid ≠ none ∧ ow = uid))
    (hexp : now1 < now0 + ttl * 60 * 1000) :
    (tryClaimKey now1 k uid s1).1 = true
    ∧ ∃ r, getIdempotency
          (setTerminal now2 k .completed P (tryClaimKey now1 k uid s1).2) k = .found r
        ∧ r.status = .completed ∧ r.response = some P := by
  unfold issueKey at hiss
  rw [habs] at hiss
  have hs1 : s1 = (k, issuedRec now0 ttl ow oper) :: s := by
    cases hiss
    rfl
  subst hs1
  have hgr : getRow ((k, issuedRec now0 ttl ow oper) :: s) k =
      some (issuedRec now0 ttl ow oper) := by
    simp [getRow]
  have hnd1 : nodupKeys ((k, issuedRec now0 ttl ow oper) :: s) := by
    unfold nodupKeys
    simp only [List.map_cons, List.nodup_cons]
    exact ⟨not_mem_fst_of_getRow_none s k habs, hnd⟩
  have hcond : claimCond now1 uid (issuedRec now0 ttl ow oper) = true := by
    apply (claimCond_iff now1 uid _).mpr
    exact ⟨rfl, howner, Or.inr ⟨now0 + ttl * 60 * 1000, rfl, hexp⟩⟩
  have htrue := (tryClaimKey_true_iff now1 k uid _ hnd1).mpr ⟨_, hgr, hcond⟩
  refine ⟨htrue, ?_⟩
  have hclaim : getRow
      (tryClaimKey now1 k uid ((k, issuedRec now0 ttl ow oper) :: s)).2 k =
      some { issuedRec now0 ttl ow oper with status := .processing, updated_at := now1 } := by
    rw [tryClaimKey_getRow_self, hgr]
    simp [hcond]
  refine ⟨{ issuedRec now0 ttl ow oper with
      status := .completed, response := some P, updated_at := now2 }, ?_, rfl, rfl⟩
  unfold getIdempotency
  rw [setTerminal_getRow_self, hclaim]

/-- Witness for C5 at a concrete issue/claim/complete/read run. -/
theorem round_trip_witness :
    (tryClaimKey 5 "k" (some 1)
      [("k", { status := .reserved, response := none, user_id := none, operation := none,
               reserved_until := some 60000, created_at := 0, updated_at := 0 })]).1
      = true :=
  (round_trip 0 1 5 9 "k" none (some 1) none (.other 7) [] _ (by decide) rfl rfl
    (Or.inl rfl) (by omega)).1

theorem getRow_cleanup_some (now : Nat) (s : Store) (k : String) (r : KeyRecord)
    (hnd : nodupKeys s) (h : getRow (cleanup now s).2 k = some r) :
    getRow s k = some r ∧ expiredReserved now r = false := by
  have h2 : getRow (s.filter (fun e => !(expiredReserved now e.2))) k = some r := h
  rw [getRow_filter (fun r => !(expiredReserved now r)) s k hnd] at h2
  cases hgr : getRow s k with
  | none =>
    rw [hgr] at h2
    exact Option.noConfusion h2
  | some r0 =>
    rw [hgr] at h2
    by_cases hex : expiredReserved now r0 = true
    · simp [hex] at h2
    · have hf : expiredReserved now r0 = false := by
        cases hb : expiredReserved now r0
        · rfl
        · exact absurd hb hex
      simp only [hf, Bool.not_false, if_pos] at h2
      obtain rfl := Option.some.inj h2
      exact ⟨rfl, hf⟩

theorem getRow_cleanup_keep (now : Nat) (s : Store) (k : String) (r : KeyRecord)
    (hnd : nodupKeys s) (hr : getRow s k = some r)
    (hkeep : expiredReserved now r = false) :
    getRow (cleanup now s).2 k = some r := by
  show getRow (s.filter (fun e => !(expiredReserved now e.2))) k = some r
  rw [getRow_filter (fun r => !(expiredReserved now r)) s k hnd, hr]
  simp [hkeep]

theorem nodupKeys_stepOp (s : Sys) (op : Op) (hnd : nodupKeys s.store) :
    nodupKeys (stepOp s op).store := by
  cases op with
  | issue now ttl k uid oper =>
    simp only [stepOp]
    cases hrow : getRow s.store k with
    | some r => simp [issueKey, hrow, hnd]
    | none =>
      simp only [issueKey, hrow]
      unfold nodupKeys at *
      simp only [List.map_cons, List.nodup_cons]
      exact ⟨not_mem_fst_of_getRow_none _ _ hrow, hnd⟩
  | claim now k uid =>
    show nodupKeys (tryClaimKey now k uid s.store).2
    exact nodupKeys_tryClaimKey now k uid s.store hnd
  | finish now k ok resp =>
    simp only [stepOp]
    split
    · exact nodupKeys_setTerminal _ _ _ _ _ hnd
    · exact hnd
  | sweep now =>
    show nodupKeys (s.store.filter (fun e => !(expiredReserved now e.2)))
    exact nodupKeys_filter (fun r => !(expiredReserved now r)) s.store hnd

theorem SysInv_stepOp (s : Sys) (op : Op) (h : SysInv s) : SysInv (stepOp s op) := by
  obtain ⟨hnd, hpnd, hpend, hresp⟩ := h
  cases op with
  | issue now ttl k uid oper =>
    simp only [stepOp]
    cases hrow : getRow s.store k with
    | some r =>
      simp only [issueKey, hrow]
      exact ⟨hnd, hpnd, hpend, hresp⟩
    | none =>
      simp only [issueKey, hrow]
      refine ⟨?_, hpnd, ?_, ?_⟩
      · unfold nodupKeys at *
        simp only [List.map_cons, List.nodup_cons]
        exact ⟨not_mem_fst_of_getRow_none _ _ hrow, hnd⟩
      · intro j hj
        obtain ⟨r, hr, hrs⟩ := hpend j hj
        refine ⟨r, ?_, hrs⟩
        show getRow ((k, issuedRec now ttl uid oper) :: s.store) j = some r
        simp only [getRow]
        rw [if_neg ?_]
        · exact hr
        · intro hkj
          rw [hkj] at hrow
          rw [hrow] at hr
          exact Option.noConfusion hr
      · intro j r hj hnt
        have hj2 : getRow ((k, issuedRec now ttl uid oper) :: s.store) j = some r := hj
        simp only [getRow] at hj2
        by_cases hkj : k = j
        · rw [if_pos hkj] at hj2
          obtain rfl := Option.some.inj hj2
          rfl
        · rw [if_neg hkj] at hj2
          exact hresp j r hj2 hnt
  | claim now k uid =>
    by_cases hok : (tryClaimKey now k uid s.store).1 = true
    · obtain ⟨r, hr, hc⟩ := (tryClaimKey_true_iff now k uid s.store hnd).mp hok
      have hrs : r.status = .reserved := ((claimCond_iff now uid r).mp hc).1
      have hknp : k ∉ s.pending := by
        intro hk
        obtain ⟨r2, hr2, hr2s⟩ := hpend k hk
        rw [hr] at hr2
        obtain rfl := Option.some.inj hr2
        rw [hrs] at hr2s
        exact Status.noConfusion hr2s
      have hgrk : getRow (tryClaimKey now k uid s.store).2 k =
          some { r with status := .processing, updated_at := now } := by
        rw [tryClaimKey_getRow_self, hr]
        simp [hc]
      refine ⟨?_, ?_, ?_, ?_⟩
      · show nodupKeys (tryClaimKey now k uid s.store).2
        exact nodupKeys_tryClaimKey now k uid s.store hnd
      · show (if (tryClaimKey now k uid s.store).1 = true
            then k :: s.pending else s.pending).Nodup
        rw [if_pos hok]
        exact List.nodup_cons.mpr ⟨hknp, hpnd⟩
      · intro j hj
        have hj2 : j ∈ (if (tryClaimKey now k uid s.store).1 = true
            then k :: s.pending else s.pending) := hj
        rw [if_pos hok] at hj2
        by_cases hjk : j = k
        · subst hjk
          exact ⟨_, hgrk, rfl⟩
        · have hjp : j ∈ s.pending := by
            rcases List.mem_cons.mp hj2 with h1 | h1
            · exact absurd h1 hjk
            · exact h1
          obtain ⟨r2, hr2, hr2s⟩ := hpend j hjp
          refine ⟨r2, ?_, hr2s⟩
          show getRow (tryClaimKey now k uid s.store).2 j = some r2
          rw [tryClaimKey_getRow_ne now k j uid s.store hjk]
          exact hr2
      · intro j r2 hj hnt
        have hj2 : getRow (tryClaimKey now k uid s.store).2 j = some r2 := hj
        by_cases hjk : j = k
        · subst hjk
          rw [hgrk] at hj2
          obtain rfl := Option.some.inj hj2
          show r.response = none
          exact hresp j r hr (Or.inl hrs)
        · rw [tryClaimKey_getRow_ne now k j uid s.store hjk] at hj2
          exact hresp j r2 hj2 hnt
    · have hf : (tryClaimKey now k uid s.store).1 = false := by
        cases htc : (tryClaimKey now k uid s.store).1
        · rfl
        · exact absurd htc hok
      have hst := tryClaimKey_false_store now k uid s.store hnd hf
      refine ⟨?_, ?_, ?_, ?_⟩
      · show nodupKeys (tryClaimKey now k uid s.store).2
        rw [hst]
        exact hnd
      · show (if (tryClaimKey now k uid s.store).1 = true
            then k :: s.pending else s.pending).Nodup
        rw [if_neg (by simp [hf])]
        exact hpnd
      · intro j hj
        have hj2 : j ∈ (if (tryClaimKey now k uid s.store).1 = true
            then k :: s.pending else s.pending) := hj
        rw [if_neg (by simp [hf])] at hj2
        obtain ⟨r, hr, hrs⟩ := hpend j hj2
        refine ⟨r, ?_, hrs⟩
        show getRow (tryClaimKey now k uid s.store).2 j = some r
        rw [hst]
        exact hr
      · intro j r hj hnt
        have hj2 : getRow (tryClaimKey now k uid s.store).2 j = some r := hj
        rw [hst] at hj2
        exact hresp j r hj2 hnt
  | finish now k ok resp =>
    simp only [stepOp]
    split
    · rename_i hkp
      refine ⟨?_, ?_, ?_, ?_⟩
      · exact nodupKeys_setTerminal _ _ _ _ _ hnd
      · exact hpnd.erase k
      · intro j hj
        have hjk : j ≠ k ∧ j ∈ s.pending := (List.Nodup.mem_erase_iff hpnd).mp hj
        obtain ⟨r, hr, hrs⟩ := hpend j hjk.2
        refine ⟨r, ?_, hrs⟩
        rw [setTerminal_getRow_ne now k j _ _ _ hjk.1]
        exact hr
      · intro j r hj hnt
        by_cases hjk : j = k
        · subst hjk
          rw [setTerminal_getRow_self] at hj
          cases hgr : getRow s.store j with
          | none =>
            rw [hgr] at hj
            exact Option.noConfusion hj
          | some r0 =>
            rw [hgr] at hj
            obtain rfl := Option.some.inj hj
            cases ok <;> rcases hnt with h | h <;> exact Status.noConfusion h
        · rw [setTerminal_getRow_ne now k j _ _ _ hjk] at hj
          exact hresp j r hj hnt
    · exact ⟨hnd, hpnd, hpend, hresp⟩
  | sweep now =>
    refine ⟨?_, hpnd, ?_, ?_⟩
    · show nodupKeys (s.store.filter (fun e => !(expiredReserved now e.2)))
      exact nodupKeys_filter (fun r => !(expiredReserved now r)) s.store hnd
    · intro j hj
      obtain ⟨r, hr, hrs⟩ := hpend j hj
      refine ⟨r, ?_, hrs⟩
      show getRow (cleanup now s.store).2 j = some r
      exact getRow_cleanup_keep now s.store j r hnd hr (by simp [expiredReserved, hrs])
    · intro j r hj hnt
      have hj2 : getRow (cleanup now s.store).2 j = some r := hj
      exact hresp j r (getRow_cleanup_some now s.store j r hnd hj2).1 hnt

theorem SysInv_initSys : SysInv initSys := by
  refine ⟨List.nodup_nil, List.nodup_nil, ?_, ?_⟩
  · intro k hk
    exact absurd hk (List.not_mem_nil k)
  · intro k r hr _
    exact Option.noConfusion hr

theorem SysInv_execOps (ops : List Op) : ∀ (s : Sys), SysInv s → SysInv (execOps ops s) := by
  induction ops with
  | nil => intro s h; exact h
  | cons op rest ih =>
    intro s h
    show SysInv (execOps rest (stepOp s op))
    exact ih (stepOp s op) (SysInv_stepOp s op h)

theorem nodupKeys_execOps (ops : List Op) :
    ∀ (s : Sys), nodupKeys s.store → nodupKeys (execOps ops s).store := by
  induction ops with
  | nil => intro s h; exact h
  | cons op rest ih =>
    intro s h
    show nodupKeys (execOps rest (stepOp s op)).store
    exact ih (stepOp s op) (nodupKeys_stepOp s op h)

theorem terminal_row_frozen_stepOp (s : Sys) (op : Op) (k : String) (r : KeyRecord)
    (hInv : SysInv s) (hr : getRow s.store k = some r)
    (ht : r.status.isTerminal = true) :
    getRow (stepOp s op).store k = some r := by
  obtain ⟨hnd, hpnd, hpend, hresp⟩ := hInv
  cases op with
  | issue now ttl k' uid oper =>
    simp only [stepOp]
    cases hrow : getRow s.store k' with
    | some r2 =>
      simp only [issueKey, hrow]
      exact hr
    | none =>
      simp only [issueKey, hrow]
      show getRow ((k', issuedRec now ttl uid oper) :: s.store) k = some r
      simp only [getRow]
      rw [if_neg ?_]
      · exact hr
      · intro hkk
        rw [hkk, hr] at hrow
        exact Option.noConfusion hrow
  | claim now k' uid =>
    show getRow (tryClaimKey now k' uid s.store).2 k = some r
    by_cases hk : k = k'
    · subst hk
      rw [tryClaimKey_getRow_self, hr]
      have hc : claimCond now uid r = false := by
        cases hb : claimCond now uid r
        · rfl
        · rw [((claimCond_iff now uid r).mp hb).1] at ht
          exact absurd ht (by decide)
      simp [hc]
    · rw [tryClaimKey_getRow_ne now k' k uid s.store hk]
      exact hr
  | finish now k' ok resp =>
    simp only [stepOp]
    split
    · rename_i hkp
      by_cases hk : k = k'
      · subst hk
        obtain ⟨r2, hr2, hr2s⟩ := hpend k hkp
        rw [hr] at hr2
        obtain rfl := Option.some.inj hr2
        rw [hr2s] at ht
        exact absurd ht (by decide)
      · rw [setTerminal_getRow_ne now k' k _ _ _ hk]
        exact hr
    · exact hr
  | sweep now =>
    show getRow (cleanup now s.store).2 k = some r
    have hnr : expiredReserved now r = false := by
      cases hst : r.status with
      | reserved =>
        rw [hst] at ht
        exact absurd ht (by decide)
      | processing => simp [expiredReserved, hst]
      | completed => simp [expiredReserved, hst]
      | failed => simp [expiredReserved, hst]
    exact getRow_cleanup_keep now s.store k r hnd hr hnr

theorem terminal_row_frozen_execOps (ops : List Op) :
    ∀ (s : Sys) (k : String) (r : KeyRecord), SysInv s →
      getRow s.store k = some r → r.status.isTerminal = true →
      getRow (execOps ops s).store k = some r := by
  induction ops with
  | nil =>
    intro s k r _ hr _
    exact hr
  | cons op rest ih =>
    intro s k r hInv hr ht
    show getRow (execOps rest (stepOp s op)).store k = some r
    exact ih (stepOp s op) k r (SysInv_stepOp s op hInv)
      (terminal_row_frozen_stepOp s op k r hInv hr ht) ht

theorem keyNotReserved_stepOp (s : Sys) (op : Op) (k : String)
    (hnd : nodupKeys s.store) (h : keyNotReserved k s.store)
    (hni : ¬ isIssueOf k op) : keyNotReserved k (stepOp s op).store := by
  cases op with
  | issue now ttl k' uid oper =>
    intro r hr
    simp only [stepOp] at hr
    cases hrow : getRow s.store k' with
    | some r2 =>
      simp only [issueKey, hrow] at hr
      exact h r hr
    | none =>
      simp only [issueKey, hrow] at hr
      have hr2 : getRow ((k', issuedRec now ttl uid oper) :: s.store) k = some r := hr
      simp only [getRow] at hr2
      rw [if_neg (show ¬ (k' = k) from fun hkk => hni hkk)] at hr2
      exact h r hr2
  | claim now k' uid =>
    intro r hr
    have hr2 : getRow (tryClaimKey now k' uid s.store).2 k = some r := hr
    by_cases hk : k = k'
    · subst hk
      rw [tryClaimKey_getRow_self] at hr2
      cases hgr : getRow s.store k with
      | none =>
        rw [hgr] at hr2
        exact Option.noConfusion hr2
      | some r0 =>
        rw [hgr] at hr2
        have h0 := h r0 hgr
        have hc : claimCond now uid r0 = false := by
          cases hb : claimCond now uid r0
          · rfl
          · exact absurd ((claimCond_iff now uid r0).mp hb).1 h0
        simp only [hc] at hr2
        have hr3 : some r0 = some r := by simpa using hr2
        obtain rfl := Option.some.inj hr3
        exact h0
    · rw [tryClaimKey_getRow_ne now k' k uid s.store hk] at hr2
      exact h r hr2
  | finish now k' ok resp =>
    intro r hr
    simp only [stepOp] at hr
    split at hr
    · by_cases hk : k = k'
      · subst hk
        rw [setTerminal_getRow_self] at hr
        cases hgr : getRow s.store k with
        | none =>
          rw [hgr] at hr
          exact Option.noConfusion hr
        | some r0 =>
          rw [hgr] at hr
          obtain rfl := Option.some.inj hr
          cases ok
          · exact fun hh => Status.noConfusion hh
          · exact fun hh => Status.noConfusion hh
      · rw [setTerminal_getRow_ne now k' k _ _ _ hk] at hr
        exact h r hr
    · exact h r hr
  | sweep now =>
    intro r hr
    have hr2 : getRow (cleanup now s.store).2 k = some r := hr
    exact h r (getRow_cleanup_some now s.store k r hnd hr2).1

theorem keyNotReserved_execOps (ops : List Op) :
    ∀ (s : Sys) (k : String), nodupKeys s.store → keyNotReserved k s.store →
      (∀ op ∈ ops, ¬ isIssueOf k op) → keyNotReserved k (execOps ops s).store := by
  induction ops with
  | nil =>
    intro s k _ h _
    exact h
  | cons op rest ih =>
    intro s k hnd h hni
    show keyNotReserved k (execOps rest (stepOp s op)).store
    exact ih (stepOp s op) k (nodupKeys_stepOp s op hnd)
      (keyNotReserved_stepOp s op k hnd h (hni op (List.mem_cons_self op rest)))
      (fun o ho => hni o (List.mem_cons_of_mem op ho))

theorem claimSeq_count_zero (k : String) :
    ∀ (as : List (Nat × Option Nat)) (s : Store), nodupKeys s →
      keyNotReserved k s → (claimSeq k s as).1.count true = 0 := by
  intro as
  induction as with
  | nil =>
    intro s _ _
    rfl
  | cons a rest ih =>
    intro s hnd h
    have hfail : tryClaimKey a.1 k a.2 s = (false, s) :=
      tryClaimKey_fail a.1 k a.2 s hnd (fun r hr => by
        cases hb : claimCond a.1 a.2 r
        · rfl
        · exact absurd ((claimCond_iff a.1 a.2 r).mp hb).1 (h r hr))
    show ((claimSeq k s (a :: rest)).1.count true) = 0
    simp only [claimSeq, hfail]
    rw [List.count_cons]
    simp only [beq_iff_eq, reduceCtorEq, if_false]
    exact ih s hnd h

theorem claimSeq_count_one (k : String) (s : Store) (r : KeyRecord)
    (as : List (Nat × Option Nat)) (hnd : nodupKeys s)
    (hr : getRow s k = some r) (hne : as ≠ [])
    (hall : ∀ a ∈ as, claimCond a.1 a.2 r = true) :
    (claimSeq k s as).1.count true = 1 := by
  cases as with
  | nil => exact absurd rfl hne
  | cons a rest =>
    have hc := hall a (List.mem_cons_self a rest)
    have htrue : (tryClaimKey a.1 k a.2 s).1 = true :=
      (tryClaimKey_true_iff a.1 k a.2 s hnd).mpr ⟨r, hr, hc⟩
    have hgr : getRow (tryClaimKey a.1 k a.2 s).2 k =
        some { r with status := .processing, updated_at := a.1 } := by
      rw [tryClaimKey_getRow_self, hr]
      simp [hc]
    have hnd2 := nodupKeys_tryClaimKey a.1 k a.2 s hnd
    have hzero := claimSeq_count_zero k rest (tryClaimKey a.1 k a.2 s).2 hnd2
      (fun r2 hr2 => by
        rw [hgr] at hr2
        obtain rfl := Option.some.inj hr2
        exact fun hh => Status.noConfusion hh)
    show ((claimSeq k s (a :: rest)).1.count true) = 1
    simp only [claimSeq, htrue]
    rw [List.count_cons]
    simp [hzero, htrue]

/-- C3: in every state reachable from the empty system by any interleaving
of the protocol operations (issue, claim, the winning claimant's single
complete/fail write, sweep), a row that has reached a terminal status is
never changed again — its status and response are frozen — and every
`reserved` or `processing` row has a NULL response, even though the
terminal write is an unconditional UPDATE keyed only on the key value. -/
theorem protocol_terminal_immutable (ops1 ops2 : List Op) (k : String) (r : KeyRecord) :
    (getRow (execOps ops1 initSys).store k = some r → r.status.isTerminal = true →
      getRow (execOps (ops1 ++ ops2) initSys).store k = some r)
    ∧ (getRow (execOps ops1 initSys).store k = some r →
        (r.status = .reserved ∨ r.status = .processing) → r.response = none) := by
  have hInv : SysInv (execOps ops1 initSys) := SysInv_execOps ops1 initSys SysInv_initSys
  constructor
  · intro hr ht
    have happ : execOps (ops1 ++ ops2) initSys = execOps ops2 (execOps ops1 initSys) := by
      unfold execOps
      exact List.foldl_append stepOp initSys ops1 ops2
    rw [happ]
    exact terminal_row_frozen_execOps ops2 (execOps ops1 initSys) k r hInv hr ht
  · intro hr hnt
    exact hInv.2.2.2 k r hr hnt

/-- Witness for C3: a completed key survives a stray fail write, a sweep and
a claim attempt untouched. -/
theorem protocol_terminal_immutable_witness :
    getRow (execOps ([.issue 0 1 "k" none none, .claim 5 "k" (some 1),
        .finish 6 "k" true (.other 9)] ++
      [.finish 7 "k" false (.errMsg "x"), .sweep 100, .claim 8 "k" (some 2)])
      initSys).store "k" =
      some { status := .completed, response := some (.other 9), user_id := none,
             operation := none, reserved_until := some 60000,
             created_at := 0, updated_at := 6 } :=
  (protocol_terminal_immutable
    [.issue 0 1 "k" none none, .claim 5 "k" (some 1), .finish 6 "k" true (.other 9)]
    [.finish 7 "k" false (.errMsg "x"), .sweep 100, .claim 8 "k" (some 2)] "k"
    { status := .completed, response := some (.other 9), user_id := none,
      operation := none, reserved_until := some 60000,
      created_at := 0, updated_at := 6 }).1 (by decide) (by decide)

/-- C1: among any number of serialised claim attempts on a key whose row
satisfies the claim condition for each of them, exactly one attempt returns
true and all others return false; and across any interleaving of protocol
operations that does not re-issue the key, no second claim attempt can ever
return true after one has succeeded. -/
theorem claim_exactly_once (k : String) :
    (∀ (s : Store) (r : KeyRecord) (as : List (Nat × Option Nat)), nodupKeys s →
      getRow s k = some r → as ≠ [] → (∀ a ∈ as, claimCond a.1 a.2 r = true) →
      (claimSeq k s as).1.count true = 1)
    ∧ (∀ (sys : Sys) (now1 : Nat) (uid1 : Option Nat) (now2 : Nat) (uid2 : Option Nat)
        (ops : List Op), nodupKeys sys.store → (∀ op ∈ ops, ¬ isIssueOf k op) →
        (tryClaimKey now1 k uid1 sys.store).1 = true →
        (tryClaimKey now2 k uid2
          (execOps ops (stepOp sys (.claim now1 k uid1))).store).1 = false) := by
  constructor
  · intro s r as hnd hr hne hall
    exact claimSeq_count_one k s r as hnd hr hne hall
  · intro sys now1 uid1 now2 uid2 ops hnd hni htrue
    obtain ⟨r, hr, hc⟩ := (tryClaimKey_true_iff now1 k uid1 sys.store hnd).mp htrue
    have hgr1 : getRow (stepOp sys (.claim now1 k uid1)).store k =
        some { r with status := .processing, updated_at := now1 } := by
      show getRow (tryClaimKey now1 k uid1 sys.store).2 k = _
      rw [tryClaimKey_getRow_self, hr]
      simp [hc]
    have hknr1 : keyNotReserved k (stepOp sys (.claim now1 k uid1)).store := by
      intro r2 hr2
      rw [hgr1] at hr2
      obtain rfl := Option.some.inj hr2
      exact fun hh => Status.noConfusion hh
    have hnd1 : nodupKeys (stepOp sys (.claim now1 k uid1)).store :=
      nodupKeys_stepOp sys _ hnd
    have hknr2 := keyNotReserved_execOps ops (stepOp sys (.claim now1 k uid1)) k
      hnd1 hknr1 hni
    have hnd2 : nodupKeys (execOps ops (stepOp sys (.claim now1 k uid1))).store :=
      nodupKeys_execOps ops _ hnd1
    cases hb : (tryClaimKey now2 k uid2
        (execOps ops (stepOp sys (.claim now1 k uid1))).store).1
    · rfl
    · exfalso
      obtain ⟨r3, hr3, hc3⟩ := (tryClaimKey_true_iff now2 k uid2 _ hnd2).mp hb
      exact hknr2 r3 hr3 ((claimCond_iff now2 uid2 r3).mp hc3).1

/-- Witness for C1: two simultaneous claims on a claimable key, exactly one
winner. -/
theorem claim_exactly_once_witness :
    (claimSeq "a" sOne [(5, some 1), (6, some 2)]).1.count true = 1 :=
  (claim_exactly_once "a").1 sOne rRes [(5, some 1), (6, some 2)]
    (by decide) (by decide) (by decide) (by decide)

end IdemKeys
